import Mathlib

/-!
Verification development for the vRA client library (`vra_lib`).

The two core components are shallowly embedded from the Python source:

* `Sched` embeds `synchronization.Scheduler`: a sliding-window rate
  limiter holding a deque `schedule` of admission timestamps, a
  concurrency permit pool (`eventlet.semaphore.Semaphore(rate)`), a
  window length `limit` and an acquisition `timeout`.  Timestamps are
  modelled as rationals; the wall clock is an input of every step.
  `Sched.grant` embeds the body of `Scheduler.__enter__` after a
  successful semaphore acquisition; `Sched.enter` additionally models
  the semaphore result (`acquired`); `Sched.exit` embeds
  `Scheduler.__exit__` (release + prune loop).

* `retryAux` / `retryCall` embed the attempt loop of
  `client.RetryPolicy.__call__`: each invocation of the wrapped
  function is an environment-supplied `Attempt` (an HTTP response, a
  transport-level exception, or a scheduler-timeout exception
  propagating out of the wrapped call), and the observable side
  effects of the loop (re-login invocations, fixed pauses) are
  collected as a list of `Event`s.  `mkInfo` / `isLoginInfo` embed the string-based
  detection of the login call.

`Reach` is the step relation of a scheduler instance: any interleaving
of admissions and releases with a non-decreasing clock.
-/

/-! ## Scheduler state (`synchronization.Scheduler`) -/

/-- Error raised by `Scheduler.__enter__` when the semaphore is not
acquired within the timeout; it carries the current queue size and the
configured rate, limit and timeout (the format arguments of the raised
exception). -/
structure TimeoutErr where
  queueSize : ℕ
  rate : ℕ
  limit : ℚ
  timeout : ℚ
  deriving DecidableEq

/-- State of a `Scheduler` instance: configuration (`rate`, `limit`,
`timeout`), the admission log `schedule` (deque of timestamps) and the
current value of the counting semaphore (`permits`). -/
structure Sched where
  rate : ℕ
  limit : ℚ
  timeout : ℚ
  schedule : List ℚ
  permits : ℕ
  deriving DecidableEq

/-- Result of a successful admission: the new scheduler state, the
duration slept inside `__enter__` (`none` when the window was not
full), and the timestamp recorded into the log (`run_time`). -/
structure Granted where
  sched : Sched
  slept : Option ℚ
  recorded : ℚ
  deriving DecidableEq

/-- Body of `Scheduler.__enter__` after the semaphore was acquired, at
sampled clock value `t` (`run_time = time.time()`):

* `offset = len(self.schedule) - self.rate`;
* if `offset >= 0 and run_time - self.limit < self.schedule[offset]`,
  sleep for `run_time - self.schedule[offset] + self.limit` and set
  `run_time = self.schedule[offset] + self.limit`;
* append `run_time` to the schedule. -/
def Sched.grant (s : Sched) (t : ℚ) : Granted :=
  let n := s.schedule.length
  let offEntry := s.schedule.getD (n - s.rate) 0
  if s.rate ≤ n ∧ t - s.limit < offEntry then
    { sched := ⟨s.rate, s.limit, s.timeout, s.schedule ++ [offEntry + s.limit],
        s.permits - 1⟩
      slept := some (t - offEntry + s.limit)
      recorded := offEntry + s.limit }
  else
    { sched := ⟨s.rate, s.limit, s.timeout, s.schedule ++ [t], s.permits - 1⟩
      slept := none
      recorded := t }

/-- Embedding of `Scheduler.__enter__` including the semaphore acquisition:
`acquired` tells whether `self._semaphore.acquire(blocking=True,
timeout=self.timeout)` returned `True`.  On failure the raised
exception carries `len(self.schedule)`, `self.rate`, `self.limit` and
`self.timeout`. -/
def Sched.enter (s : Sched) (acquired : Bool) (t : ℚ) : Except TimeoutErr Granted :=
  if acquired then .ok (s.grant t)
  else .error ⟨s.schedule.length, s.rate, s.limit, s.timeout⟩

/-- Embedding of `Scheduler.__exit__` at clock value `now`: release the semaphore,
then pop leading schedule entries while `schedule[0] < now - limit`. -/
def Sched.exit (s : Sched) (now : ℚ) : Sched :=
  { s with permits := s.permits + 1,
           schedule := s.schedule.dropWhile (fun e => decide (e < now - s.limit)) }

/-- Reachable scheduler states, paired with the latest clock value
observed.  `init` is `Scheduler.__init__` (which validates `rate > 0`
and `limit > 0` and creates an empty deque and a semaphore of value
`rate`); `enter` is a successful admission (requires a free permit) at
a clock value not before the previous event; `exit` is a release. -/
inductive Reach : Sched → ℚ → Prop
  | init (rate : ℕ) (limit timeout t0 : ℚ) (hr : 0 < rate) (hl : 0 < limit) :
      Reach ⟨rate, limit, timeout, [], rate⟩ t0
  | enter {s : Sched} {T : ℚ} (t : ℚ) (a : Granted) (hR : Reach s T)
      (ht : T ≤ t) (hp : 0 < s.permits) (ha : s.grant t = a) :
      Reach a.sched t
  | exit {s : Sched} {T : ℚ} (now : ℚ) (hR : Reach s T) (h : T ≤ now) :
      Reach (s.exit now) now

/-! ## Retry policy (`client.RetryPolicy`) -/

/-- An HTTP response as far as the retry loop inspects it: the status
code, plus an opaque payload standing for url/reason/content. -/
structure Response where
  status : ℕ
  payload : ℕ
  deriving DecidableEq

/-- Outcome of one invocation of the wrapped function, supplied by the
environment: a response, a transport-level exception (`HTTPError`,
`ConnectionError`, `ConnectTimeout` — the caught class tuple), or the
scheduler-timeout exception propagating out of the `with
self.api_scheduler` block (any other exception class is not caught by
the loop). -/
inductive Attempt where
  | resp (r : Response)
  | transportFail (e : ℕ)
  | admissionTimeout (a : TimeoutErr)
  deriving DecidableEq

/-- The value of `last_err` inside the loop: either the formatted
description of an unsuccessful response or a caught transport
exception. -/
inductive LastErr where
  | httpErr (r : Response)
  | transport (e : ℕ)
  deriving DecidableEq

/-- Observable side effects of the loop: an invocation of
`self.login()` and a fixed `eventlet.sleep(pause)`. -/
inductive Event where
  | loginCall
  | pause
  deriving DecidableEq

/-- How a run of the decorated call terminates: a normal return of a
response, an `HttpUnsuccessfulException` raised for a response, the
final `Exception(info, last_err)` after exhausting attempts, or the
scheduler-timeout exception propagating uncaught. -/
inductive RpResult where
  | ret (r : Response)
  | httpUnsuccessful (r : Response)
  | exhausted (lastErr : Option LastErr)
  | admissionTimeout (a : TimeoutErr)
  deriving DecidableEq

/-- The attempt loop of `RetryPolicy.__call__` with `k` attempts left,
`i` invocations of the wrapped function already made, and current
`last_err`.  `attempts j` is the outcome of the `j`-th invocation.
Mirrors the Python control flow:

* 2xx or 404 → return the response;
* 4xx: on the login call raise `HttpUnsuccessfulException`, otherwise
  call `self.login()` and `continue` (no pause);
* other status ≥ 300 → raise `HttpUnsuccessfulException`;
* other status (1xx) → return the response;
* caught transport exception → record `last_err`, sleep `pause`, next
  iteration (also after the final attempt, before the final raise);
* any other exception propagates. -/
def retryAux (attempts : ℕ → Attempt) (isLogin : Bool) :
    ℕ → ℕ → Option LastErr → RpResult × List Event
  | 0, _, le => (.exhausted le, [])
  | k + 1, i, _ =>
    match attempts i with
    | .transportFail e =>
        let p := retryAux attempts isLogin k (i + 1) (some (.transport e))
        (p.1, .pause :: p.2)
    | .admissionTimeout a => (.admissionTimeout a, [])
    | .resp r =>
        if (200 ≤ r.status ∧ r.status < 300) ∨ r.status = 404 then (.ret r, [])
        else if 400 ≤ r.status ∧ r.status < 500 then
          if isLogin then (.httpUnsuccessful r, [])
          else
            let p := retryAux attempts isLogin k (i + 1) (some (.httpErr r))
            (p.1, .loginCall :: p.2)
        else if 300 ≤ r.status then (.httpUnsuccessful r, [])
        else (.ret r, [])

/-- A full run of the decorated call: `until = self._config.connection_retries`
attempts, starting with no `last_err`. -/
def retryCall (untilN : ℕ) (isLogin : Bool) (attempts : ℕ → Attempt) :
    RpResult × List Event :=
  retryAux attempts isLogin untilN 0 none

/-! ## Login-call detection (`info` string) -/

/-- The Python substring test `needle in hay` on character lists. -/
def strContains (hay needle : List Char) : Bool :=
  match hay with
  | [] => needle.isEmpty
  | _ :: t => needle.isPrefixOf hay || strContains t needle

/-- The string `"Function {} Arguments {}".format(function, str(kwargs))`. -/
def functionInfo (functionName kwargsStr : List Char) : List Char :=
  "Function ".data ++ functionName ++ " Arguments ".data ++ kwargsStr

/-- The `info` string of `RetryPolicy.__call__`: it is `"Login"` when
`kwargs` has a `path` key whose value contains `login`, otherwise the
formatted function/arguments description.  `pathVal` is
`kwargs.get(path)` (`none` when the `path` key is absent). -/
def mkInfo (functionName kwargsStr : List Char) (pathVal : Option (List Char)) :
    List Char :=
  match pathVal with
  | some p =>
      if strContains p "login".data then "Login".data
      else functionInfo functionName kwargsStr
  | none => functionInfo functionName kwargsStr

/-- The login-call test used by the 4xx branch: `"Login" in info`. -/
def isLoginInfo (info : List Char) : Bool :=
  strContains info "Login".data

/-! ## Scheduler invariants -/

/-- Window property of the admission log: any two entries `rate`
positions apart are at least `limit` seconds apart. -/
def gapOK (rate : ℕ) (limit : ℚ) (S : List ℚ) : Prop :=
  ∀ i, i + rate < S.length → S.getD i 0 + limit ≤ S.getD (i + rate) 0

/-- Provenance of log entries relative to the latest clock value `T`:
every entry was either sampled from the clock (hence is at most `T`)
or recomputed from the entry `rate` positions before it. -/
def provOK (rate : ℕ) (limit T : ℚ) (S : List ℚ) : Prop :=
  ∀ p, p < S.length →
    S.getD p 0 ≤ T ∨ (rate ≤ p ∧ S.getD p 0 = S.getD (p - rate) 0 + limit)

/-- Combined invariant of the admission log at latest clock value `T`:
the log is non-decreasing, satisfies the window property, and every
entry has a provenance. -/
def logInv (rate : ℕ) (limit T : ℚ) (S : List ℚ) : Prop :=
  S.Pairwise (· ≤ ·) ∧ gapOK rate limit S ∧ provOK rate limit T S

lemma logInv_nil (rate : ℕ) (limit T : ℚ) : logInv rate limit T [] := by
  refine ⟨List.Pairwise.nil, ?_, ?_⟩ <;> intro p hp <;> simp at hp

lemma logInv_mono {rate : ℕ} {limit T T' : ℚ} {S : List ℚ} (hTT : T ≤ T')
    (h : logInv rate limit T S) : logInv rate limit T' S := by
  refine ⟨h.1, h.2.1, fun p hp => ?_⟩
  rcases h.2.2 p hp with h1 | h2
  · exact Or.inl (le_trans h1 hTT)
  · exact Or.inr h2

lemma getD_lt_getD_of_pairwise {S : List ℚ} (hPW : S.Pairwise (· ≤ ·))
    {i j : ℕ} (hij : i < j) (hj : j < S.length) : S.getD i 0 ≤ S.getD j 0 := by
  have hi : i < S.length := lt_trans hij hj
  rw [List.getD_eq_getElem?_getD, List.getD_eq_getElem?_getD,
    List.getElem?_eq_getElem hi, List.getElem?_eq_getElem hj]
  exact List.pairwise_iff_getElem.mp hPW i j hi hj hij

/-- Appending a suitable new entry preserves the log invariant. -/
lemma logInv_append {rate : ℕ} {limit T t x : ℚ} {S : List ℚ}
    (hrate : 0 < rate) (hinv : logInv rate limit T S) (hTt : T ≤ t)
    (hx1 : T ≤ x)
    (hx2 : rate ≤ S.length → S.getD (S.length - rate) 0 + limit ≤ x)
    (hx3 : x ≤ t ∨ (rate ≤ S.length ∧ x = S.getD (S.length - rate) 0 + limit)) :
    logInv rate limit t (S ++ [x]) := by
  obtain ⟨hPW, hGap, hProv⟩ := hinv
  have hlen : (S ++ [x]).length = S.length + 1 := by simp
  have hELem : ∀ a ∈ S, a ≤ x := by
    intro a ha
    obtain ⟨p, hp, hpa⟩ := List.mem_iff_getElem.mp ha
    have hpd : S.getD p 0 = a := by
      rw [List.getD_eq_getElem?_getD, List.getElem?_eq_getElem hp]
      simpa using hpa
    rcases hProv p hp with h1 | ⟨h2a, h2b⟩
    · exact hpd ▸ le_trans h1 hx1
    · have hrn : rate ≤ S.length := le_trans h2a (le_of_lt hp)
      have hlt : p - rate < S.length - rate := Nat.sub_lt_sub_right h2a hp
      have hle : S.getD (p - rate) 0 ≤ S.getD (S.length - rate) 0 :=
        getD_lt_getD_of_pairwise hPW hlt (by omega)
      calc a = S.getD (p - rate) 0 + limit := by rw [← hpd, h2b]
        _ ≤ S.getD (S.length - rate) 0 + limit := by linarith
        _ ≤ x := hx2 hrn
  refine ⟨?_, ?_, ?_⟩
  · exact List.pairwise_append.mpr
      ⟨hPW, List.pairwise_singleton _ _, fun a ha b hb => by
        simp at hb; exact hb ▸ hELem a ha⟩
  · intro i hi
    rw [hlen] at hi
    rcases Nat.lt_or_ge (i + rate) S.length with hlt | hge
    · rw [List.getD_append _ _ _ _ (by omega), List.getD_append _ _ _ _ hlt]
      exact hGap i hlt
    · have heq : i + rate = S.length := by omega
      have hi' : i < S.length := by omega
      rw [List.getD_append _ _ _ _ hi', heq,
        List.getD_append_right _ _ _ _ (le_refl _), Nat.sub_self,
        List.getD_cons_zero]
      have hrn : rate ≤ S.length := by omega
      have : i = S.length - rate := by omega
      rw [this]
      exact hx2 hrn
  · intro p hp
    rw [hlen] at hp
    rcases Nat.lt_or_ge p S.length with hlt | hge
    · rcases hProv p hlt with h1 | ⟨h2a, h2b⟩
      · exact Or.inl (by rw [List.getD_append _ _ _ _ hlt]; exact le_trans h1 hTt)
      · refine Or.inr ⟨h2a, ?_⟩
        rw [List.getD_append _ _ _ _ hlt,
          List.getD_append _ _ _ _ (by omega : p - rate < S.length), h2b]
    · have heq : p = S.length := by omega
      subst heq
      rcases hx3 with h1 | ⟨h2a, h2b⟩
      · exact Or.inl (by
          rw [List.getD_append_right _ _ _ _ (le_refl _), Nat.sub_self,
            List.getD_cons_zero]
          exact h1)
      · refine Or.inr ⟨h2a, ?_⟩
        rw [List.getD_append_right _ _ _ _ (le_refl _), Nat.sub_self,
          List.getD_cons_zero,
          List.getD_append _ _ _ _ (by omega : S.length - rate < S.length)]
        exact h2b

/-- Popping a stale head entry preserves the log invariant (the prune
loop of `__exit__` only removes entries older than `now - limit`). -/
lemma logInv_tail {rate : ℕ} {limit now h : ℚ} {tl : List ℚ}
    (hinv : logInv rate limit now (h :: tl)) (hh : h < now - limit) :
    logInv rate limit now tl := by
  obtain ⟨hPW, hGap, hProv⟩ := hinv
  refine ⟨hPW.of_cons, ?_, ?_⟩
  · intro i hi
    have := hGap (i + 1) (by simp; omega)
    simpa [List.getD_cons_succ, Nat.add_right_comm] using this
  · intro p hp
    rcases hProv (p + 1) (by simp; omega) with h1 | ⟨h2a, h2b⟩
    · exact Or.inl (by simpa [List.getD_cons_succ] using h1)
    · rcases Nat.lt_or_ge p rate with hlt | hge
      · have hpr : p + 1 = rate := by omega
        rw [List.getD_cons_succ, hpr, Nat.sub_self, List.getD_cons_zero] at h2b
        exact Or.inl (by rw [h2b]; linarith)
      · refine Or.inr ⟨hge, ?_⟩
        have hpr : p + 1 - rate = (p - rate) + 1 := by omega
        rw [List.getD_cons_succ, hpr, List.getD_cons_succ] at h2b
        exact h2b

/-- The prune loop preserves the log invariant. -/
lemma logInv_dropWhile {rate : ℕ} {limit now : ℚ} :
    ∀ {S : List ℚ}, logInv rate limit now S →
      logInv rate limit now (S.dropWhile fun e => decide (e < now - limit))
  | [], _ => by simpa using logInv_nil rate limit now
  | h :: tl, hinv => by
    rw [List.dropWhile_cons]
    by_cases hh : h < now - limit
    · simpa [hh] using logInv_dropWhile (logInv_tail hinv hh)
    · simpa [hh] using hinv

/-- A successful admission preserves the log invariant, advancing the
latest clock value to the sampled time `t`. -/
lemma logInv_grant {s : Sched} {T t : ℚ} (hrate : 0 < s.rate)
    (hinv : logInv s.rate s.limit T s.schedule) (hTt : T ≤ t) :
    logInv s.rate s.limit t (s.grant t).sched.schedule := by
  rw [Sched.grant]
  by_cases hc : s.rate ≤ s.schedule.length ∧
      t - s.limit < s.schedule.getD (s.schedule.length - s.rate) 0
  · simp only [hc, if_true]
    exact logInv_append hrate hinv hTt
      (le_trans hTt (by linarith [hc.2]))
      (fun _ => le_refl _)
      (Or.inr ⟨hc.1, rfl⟩)
  · simp only [hc, if_false]
    refine logInv_append hrate hinv hTt hTt ?_ (Or.inl (le_refl _))
    intro hrn
    have : ¬ t - s.limit < s.schedule.getD (s.schedule.length - s.rate) 0 := by
      intro hlt; exact hc ⟨hrn, hlt⟩
    linarith [not_lt.mp this]

lemma grant_rate {s : Sched} {t : ℚ} : (s.grant t).sched.rate = s.rate := by
  rw [Sched.grant]; split <;> rfl

lemma grant_limit {s : Sched} {t : ℚ} : (s.grant t).sched.limit = s.limit := by
  rw [Sched.grant]; split <;> rfl

/-- Every reachable scheduler state has positive rate and limit and
satisfies the log invariant at its latest clock value. -/
lemma reach_logInv {s : Sched} {T : ℚ} (h : Reach s T) :
    0 < s.rate ∧ 0 < s.limit ∧ logInv s.rate s.limit T s.schedule := by
  induction h with
  | init rate limit timeout t0 hr hl => exact ⟨hr, hl, logInv_nil _ _ _⟩
  | enter t a hR ht hp ha ih =>
    obtain ⟨hr, hl, hinv⟩ := ih
    refine ⟨?_, ?_, ?_⟩
    · rw [← ha, grant_rate]; exact hr
    · rw [← ha, grant_limit]; exact hl
    · rw [← ha, grant_rate, grant_limit]
      exact logInv_grant hr hinv ht
  | exit now hR h ih =>
    obtain ⟨hr, hl, hinv⟩ := ih
    exact ⟨hr, hl, logInv_dropWhile (logInv_mono h hinv)⟩

lemma ge_of_mem_dropWhile {c : ℚ} :
    ∀ {S : List ℚ}, S.Pairwise (· ≤ ·) →
      ∀ e ∈ S.dropWhile (fun x => decide (x < c)), c ≤ e
  | [], _, e, he => by simp at he
  | h :: tl, hPW, e, he => by
    rw [List.dropWhile_cons] at he
    by_cases hh : h < c
    · simp only [hh, decide_eq_true_eq, if_pos] at he
      exact ge_of_mem_dropWhile hPW.of_cons e he
    · simp only [hh, decide_eq_true_eq, if_neg, if_false] at he
      rcases List.mem_cons.mp he with rfl | htl
      · exact not_lt.mp hh
      · exact le_trans (not_lt.mp hh) (List.rel_of_pairwise_cons hPW htl)

/-! ## Claim theorems: scheduler -/

/-- C1: in every reachable scheduler state, any two entries of the
admission log that are `capacity` (= `rate`) positions apart are at
least `windowSeconds` (= `limit`) apart, so no `capacity + 1` recorded
admissions span less than one window; moreover a call that obtains a
permit is always admitted (excess demand is delayed, never rejected). -/
theorem scheduler_window_gap {s : Sched} {T : ℚ} (hR : Reach s T) :
    (∀ i, i + s.rate < s.schedule.length →
      s.schedule.getD i 0 + s.limit ≤ s.schedule.getD (i + s.rate) 0) ∧
    ∀ (s' : Sched) (t : ℚ), s'.enter true t = .ok (s'.grant t) :=
  ⟨(reach_logInv hR).2.2.2.1, fun _ _ => rfl⟩

/-- C9: releasing at clock value `now` increments the permit count,
prunes exactly the leading entries older than `now - limit`, and
afterwards every retained log entry is at most `windowSeconds` old. -/
theorem scheduler_release_prunes {s : Sched} {T now : ℚ} (hR : Reach s T)
    (_hnow : T ≤ now) :
    (s.exit now).permits = s.permits + 1 ∧
    (s.exit now).schedule
      = s.schedule.dropWhile (fun e => decide (e < now - s.limit)) ∧
    ∀ e ∈ (s.exit now).schedule, now - e ≤ s.limit := by
  refine ⟨rfl, rfl, fun e he => ?_⟩
  have hPW : s.schedule.Pairwise (· ≤ ·) := (reach_logInv hR).2.2.1
  have : now - s.limit ≤ e := ge_of_mem_dropWhile hPW e he
  linarith

/-- C2 (code evaluation): at the failing input `rate = 1`,
`windowSeconds = 10`, `admissionLog = [0]`, `t = 5` the code sleeps for
`t - admissionLog[offset] + windowSeconds = 15`, not the specified
`admissionLog[offset] + windowSeconds - t = 5`, while the recorded
admission timestamp is indeed recomputed as
`admissionLog[offset] + windowSeconds = 10`. -/
theorem sleep_formula_eval :
    (Sched.grant ⟨1, 10, 1, [0], 1⟩ 5).slept = some (5 - 0 + 10) ∧
    (Sched.grant ⟨1, 10, 1, [0], 1⟩ 5).recorded = 0 + 10 ∧
    (5 - 0 + 10 : ℚ) ≠ 0 + 10 - 5 := by
  refine ⟨?_, ?_, by norm_num⟩ <;> simp [Sched.grant] <;> norm_num

/-! ## Retry-loop branch lemmas -/

lemma retryAux_success (attempts : ℕ → Attempt) (isLogin : Bool) (k i : ℕ)
    (le : Option LastErr) (r : Response) (hr : attempts i = .resp r)
    (hs : (200 ≤ r.status ∧ r.status < 300) ∨ r.status = 404) :
    retryAux attempts isLogin (k + 1) i le = (.ret r, []) := by
  simp only [retryAux, hr]
  rw [if_pos hs]

lemma retryAux_fatal4xx_login (attempts : ℕ → Attempt) (k i : ℕ)
    (le : Option LastErr) (r : Response) (hr : attempts i = .resp r)
    (h4 : 400 ≤ r.status) (h5 : r.status < 500) (h404 : r.status ≠ 404) :
    retryAux attempts true (k + 1) i le = (.httpUnsuccessful r, []) := by
  simp only [retryAux, hr]
  rw [if_neg (by omega), if_pos ⟨h4, h5⟩]
  simp

lemma retryAux_4xx_relogin (attempts : ℕ → Attempt) (k i : ℕ)
    (le : Option LastErr) (r : Response) (hr : attempts i = .resp r)
    (h4 : 400 ≤ r.status) (h5 : r.status < 500) (h404 : r.status ≠ 404) :
    retryAux attempts false (k + 1) i le
      = ((retryAux attempts false k (i + 1) (some (.httpErr r))).1,
        .loginCall :: (retryAux attempts false k (i + 1) (some (.httpErr r))).2) := by
  simp only [retryAux, hr]
  rw [if_neg (by omega), if_pos ⟨h4, h5⟩, if_neg (by simp)]

lemma retryAux_fatal_other (attempts : ℕ → Attempt) (isLogin : Bool) (k i : ℕ)
    (le : Option LastErr) (r : Response) (hr : attempts i = .resp r)
    (h3 : 300 ≤ r.status) (hn4 : ¬(400 ≤ r.status ∧ r.status < 500))
    (h404 : r.status ≠ 404) :
    retryAux attempts isLogin (k + 1) i le = (.httpUnsuccessful r, []) := by
  simp only [retryAux, hr]
  rw [if_neg (by omega), if_neg (by omega), if_pos h3]

lemma retryAux_timeout (attempts : ℕ → Attempt) (isLogin : Bool) (k i : ℕ)
    (le : Option LastErr) (a : TimeoutErr) (hr : attempts i = .admissionTimeout a) :
    retryAux attempts isLogin (k + 1) i le = (.admissionTimeout a, []) := by
  simp only [retryAux, hr]

lemma retryAux_transport_step (attempts : ℕ → Attempt) (isLogin : Bool)
    (k i : ℕ) (le : Option LastErr) (e' : ℕ) (hr : attempts i = .transportFail e') :
    retryAux attempts isLogin (k + 1) i le
      = ((retryAux attempts isLogin k (i + 1) (some (.transport e'))).1,
        .pause :: (retryAux attempts isLogin k (i + 1) (some (.transport e'))).2) := by
  simp only [retryAux, hr]

lemma retryAux_all_transport (attempts : ℕ → Attempt) (isLogin : Bool) (e : ℕ → ℕ) :
    ∀ k i (le : Option LastErr), 1 ≤ k →
      (∀ j, i ≤ j → j < i + k → attempts j = .transportFail (e j)) →
      retryAux attempts isLogin k i le
        = (.exhausted (some (.transport (e (i + k - 1)))), List.replicate k .pause)
  | 0, i, le, hk, _ => by omega
  | k + 1, i, le, _, hf => by
    have h0 : attempts i = .transportFail (e i) := hf i (le_refl i) (by omega)
    rw [retryAux_transport_step attempts isLogin k i le (e i) h0]
    rcases Nat.eq_zero_or_pos k with rfl | hk
    · simp [retryAux]
    · rw [retryAux_all_transport attempts isLogin e k (i + 1)
        (some (.transport (e i))) hk (fun j hj1 hj2 => hf j (by omega) (by omega))]
      have hidx : i + 1 + k - 1 = i + (k + 1) - 1 := by omega
      rw [hidx]
      simp [List.replicate_succ]

/-! ## Claim theorems: retry policy -/

/-- C3 counterexample: with `maxAttempts = 2` and every attempt a
transport failure, the loop raises the exhaustion error wrapping the
last failure having slept 2 times, not `2 - 1 = 1` time (the sleep also
runs after the final attempt, before the final raise). -/
theorem retry_pause_count_counterexample :
    (retryCall 2 false (fun _ => .transportFail 7)).1
        = .exhausted (some (.transport 7)) ∧
    (retryCall 2 false (fun _ => .transportFail 7)).2.count .pause ≠ 2 - 1 := by
  decide

/-- C3 (amended): after `maxAttempts` consecutive transport failures,
the call raises the exhaustion error wrapping the last observed
failure, having slept the fixed pause exactly `maxAttempts` times — one
after every failed attempt, including the final one. -/
theorem retry_exhausted_wraps_last (untilN : ℕ) (isLogin : Bool)
    (attempts : ℕ → Attempt) (e : ℕ → ℕ) (hu : 1 ≤ untilN)
    (hfail : ∀ j, j < untilN → attempts j = .transportFail (e j)) :
    retryCall untilN isLogin attempts
      = (.exhausted (some (.transport (e (untilN - 1)))),
        List.replicate untilN .pause) := by
  rw [retryCall]
  have h := retryAux_all_transport attempts isLogin e untilN 0 none hu
    (fun j hj1 hj2 => hfail j (by omega))
  simpa using h

theorem retry_exhausted_wraps_last_witness :
    retryCall 2 false (fun j => .transportFail (j + 3))
      = (.exhausted (some (.transport 4)), List.replicate 2 .pause) := by
  have h := retry_exhausted_wraps_last 2 false (fun j => .transportFail (j + 3))
    (fun j => j + 3) (by norm_num) (fun j hj => rfl)
  simpa using h

/-- C4 counterexample: 404 lies in [400,500), yet a non-login call
returning 404 is returned as a success with no `login()` invocation at
all. -/
theorem relogin_404_counterexample :
    (400 ≤ 404 ∧ 404 < 500) ∧
    (retryCall 3 false (fun _ => .resp ⟨404, 5⟩)).2.count .loginCall = 0 ∧
    (retryCall 3 false (fun _ => .resp ⟨404, 5⟩)).1 = .ret ⟨404, 5⟩ := by
  decide

/-- C4 (amended): a non-login call whose attempt yields a status in
[400,500) other than 404 invokes `login()` exactly once for that
occurrence and then immediately retries the same call: exactly one
re-login event is emitted before the events of the continuation, no pause is
taken, and the retry consumes one of the remaining attempts. -/
theorem auth_error_relogin_once (attempts : ℕ → Attempt) (k i : ℕ)
    (le : Option LastErr) (r : Response) (hr : attempts i = .resp r)
    (h4 : 400 ≤ r.status) (h5 : r.status < 500) (h404 : r.status ≠ 404) :
    retryAux attempts false (k + 1) i le
      = ((retryAux attempts false k (i + 1) (some (.httpErr r))).1,
        .loginCall :: (retryAux attempts false k (i + 1) (some (.httpErr r))).2) :=
  retryAux_4xx_relogin attempts k i le r hr h4 h5 h404

theorem auth_error_relogin_once_witness :
    retryAux (fun _ => .resp ⟨401, 1⟩) false 3 0 none
      = ((retryAux (fun _ => .resp ⟨401, 1⟩) false 2 1 (some (.httpErr ⟨401, 1⟩))).1,
        .loginCall ::
          (retryAux (fun _ => .resp ⟨401, 1⟩) false 2 1 (some (.httpErr ⟨401, 1⟩))).2) :=
  auth_error_relogin_once (fun _ => .resp ⟨401, 1⟩) 2 0 none ⟨401, 1⟩ rfl
    (by norm_num) (by norm_num) (by norm_num)

/-- C5 counterexample: the login call returning 404 (a status in
[400,500)) returns normally instead of raising. -/
theorem login_404_counterexample :
    (400 ≤ 404 ∧ 404 < 500) ∧
    retryCall 3 true (fun _ => .resp ⟨404, 9⟩) = (.ret ⟨404, 9⟩, []) := by
  decide

/-- C5 (amended): when the login call itself yields a status in
[400,500) other than 404, the wrapper raises the fatal HTTP error
immediately — zero retries, and no re-login event is emitted. -/
theorem login_fatal_no_relogin (attempts : ℕ → Attempt) (k i : ℕ)
    (le : Option LastErr) (r : Response) (hr : attempts i = .resp r)
    (h4 : 400 ≤ r.status) (h5 : r.status < 500) (h404 : r.status ≠ 404) :
    retryAux attempts true (k + 1) i le = (.httpUnsuccessful r, []) :=
  retryAux_fatal4xx_login attempts k i le r hr h4 h5 h404

theorem login_fatal_no_relogin_witness :
    retryAux (fun _ => .resp ⟨401, 2⟩) true 3 0 none
      = (.httpUnsuccessful ⟨401, 2⟩, []) :=
  login_fatal_no_relogin (fun _ => .resp ⟨401, 2⟩) 2 0 none ⟨401, 2⟩ rfl
    (by norm_num) (by norm_num) (by norm_num)

/-- C6: a response whose status is at least 300, not in [400,500) and
not 404 (3xx redirects and 5xx server errors) raises the fatal HTTP
error immediately, with zero retries and no events, however many
attempts remain. -/
theorem fatal_http_immediate (attempts : ℕ → Attempt) (isLogin : Bool)
    (k i : ℕ) (le : Option LastErr) (r : Response) (hr : attempts i = .resp r)
    (h3 : 300 ≤ r.status) (hn4 : ¬(400 ≤ r.status ∧ r.status < 500))
    (h404 : r.status ≠ 404) :
    retryAux attempts isLogin (k + 1) i le = (.httpUnsuccessful r, []) :=
  retryAux_fatal_other attempts isLogin k i le r hr h3 hn4 h404

theorem fatal_http_immediate_witness :
    retryAux (fun _ => .resp ⟨500, 3⟩) false 5 0 none
      = (.httpUnsuccessful ⟨500, 3⟩, []) :=
  fatal_http_immediate (fun _ => .resp ⟨500, 3⟩) false 4 0 none ⟨500, 3⟩ rfl
    (by norm_num) (by norm_num) (by norm_num)

/-- C7: when the semaphore is not acquired within the timeout, the
scheduler fails with the timeout error carrying the current queue depth
and the configured rate, window and timeout; and the retry loop
propagates a scheduler-timeout exception escaping the wrapped call
immediately, with no retry, pause or re-login. -/
theorem admission_timeout_fatal :
    (∀ (s : Sched) (t : ℚ),
      s.enter false t = .error ⟨s.schedule.length, s.rate, s.limit, s.timeout⟩) ∧
    ∀ (attempts : ℕ → Attempt) (isLogin : Bool) (k i : ℕ)
      (le : Option LastErr) (a : TimeoutErr),
      attempts i = .admissionTimeout a →
      retryAux attempts isLogin (k + 1) i le = (.admissionTimeout a, []) :=
  ⟨fun _ _ => rfl, fun attempts isLogin k i le a hr =>
    retryAux_timeout attempts isLogin k i le a hr⟩

theorem admission_timeout_fatal_witness :
    Sched.enter ⟨2, 10, 1, [3, 4], 0⟩ false 9 = .error ⟨2, 2, 10, 1⟩ ∧
    retryAux (fun _ => .admissionTimeout ⟨2, 2, 10, 1⟩) false 3 0 none
      = (.admissionTimeout ⟨2, 2, 10, 1⟩, []) :=
  ⟨admission_timeout_fatal.1 ⟨2, 10, 1, [3, 4], 0⟩ 9,
    admission_timeout_fatal.2 (fun _ => .admissionTimeout ⟨2, 2, 10, 1⟩)
      false 2 0 none ⟨2, 2, 10, 1⟩ rfl⟩

/-- C8: a first attempt returning a status in [200,300) or exactly 404
is returned as-is on that first attempt, with no re-login, no pause and
no further attempts. -/
theorem success_first_attempt (untilN : ℕ) (isLogin : Bool)
    (attempts : ℕ → Attempt) (r : Response) (hu : 1 ≤ untilN)
    (h0 : attempts 0 = .resp r)
    (hs : (200 ≤ r.status ∧ r.status < 300) ∨ r.status = 404) :
    retryCall untilN isLogin attempts = (.ret r, []) := by
  match untilN, hu with
  | k + 1, _ => exact retryAux_success attempts isLogin k 0 none r h0 hs

theorem success_first_attempt_witness :
    retryCall 3 false (fun _ => .resp ⟨200, 7⟩) = (.ret ⟨200, 7⟩, []) :=
  success_first_attempt 3 false (fun _ => .resp ⟨200, 7⟩) ⟨200, 7⟩
    (by norm_num) rfl (by norm_num)

/-- C10 counterexample: two clauses of the claim fail on the code.
First, a non-login call whose path contains `login` does not have every
4xx response raised fatally: 404 lies in [400,500), yet a GET with path
`/api/loginAudit` (which contains `login`, so the call is classified as
the login call) returning 404 is returned as a success, not raised.
Second, a call whose path is passed positionally is not never
classified as the login call: with no `path` keyword argument, the
formatted function/arguments description `Function VraClient.post
Arguments data Login` contains `Login`, so the call is classified as
the login call. -/
theorem login_text_counterexample :
    (400 ≤ 404 ∧ 404 < 500) ∧
    strContains "/api/loginAudit".data "login".data = true ∧
    retryAux (fun _ => .resp ⟨404, 6⟩)
        (isLoginInfo
          (mkInfo "VraClient.get".data "path".data (some "/api/loginAudit".data)))
        3 0 none
      = (.ret ⟨404, 6⟩, []) ∧
    isLoginInfo (mkInfo "VraClient.post".data "data Login".data none) = true := by
  decide

/-- C10 (amended): a call is classified as the login call exactly when
its `path` keyword argument contains the substring `login`, or when the
string `Login` occurs in the formatted function/arguments description;
a call so classified has any 4xx response other than 404 raised fatally
with no re-login; and a call whose path is passed positionally is
classified as the login call exactly when `Login` occurs in the
formatted description. -/
theorem login_detected_textually :
    (∀ (fn ks : List Char) (pv : Option (List Char)),
      isLoginInfo (mkInfo fn ks pv) = true ↔
        ((∃ p, pv = some p ∧ strContains p "login".data = true) ∨
          strContains (functionInfo fn ks) "Login".data = true)) ∧
    (∀ (fn ks p : List Char) (attempts : ℕ → Attempt) (k i : ℕ)
        (le : Option LastErr) (r : Response),
      strContains p "login".data = true → attempts i = .resp r →
      400 ≤ r.status → r.status < 500 → r.status ≠ 404 →
      retryAux attempts (isLoginInfo (mkInfo fn ks (some p))) (k + 1) i le
        = (.httpUnsuccessful r, [])) ∧
    (∀ fn ks : List Char,
      isLoginInfo (mkInfo fn ks none)
        = strContains (functionInfo fn ks) "Login".data) := by
  have hLogin : ∀ p : List Char, strContains p "login".data = true →
      ∀ fn ks, isLoginInfo (mkInfo fn ks (some p)) = true := by
    intro p hp fn ks
    simp only [mkInfo, hp, if_pos]
    decide
  refine ⟨fun fn ks pv => ?_, fun fn ks p attempts k i le r hp hr h4 h5 h404 => ?_,
    fun fn ks => rfl⟩
  · cases pv with
    | none =>
      simp only [mkInfo, isLoginInfo]
      constructor
      · exact fun h => Or.inr h
      · rintro (⟨p, hps, _⟩ | h)
        · exact absurd hps (by simp)
        · exact h
    | some p =>
      by_cases hp : strContains p "login".data = true
      · constructor
        · exact fun _ => Or.inl ⟨p, rfl, hp⟩
        · exact fun _ => hLogin p hp fn ks
      · simp only [mkInfo, isLoginInfo, if_neg hp]
        constructor
        · exact fun h => Or.inr h
        · rintro (⟨p', hps, hp'⟩ | h)
          · cases Option.some_injective _ hps
            exact absurd hp' hp
          · exact h
  · rw [hLogin p hp fn ks]
    exact retryAux_fatal4xx_login attempts k i le r hr h4 h5 h404

theorem login_detected_textually_witness :
    isLoginInfo
        (mkInfo "VraClient.post".data "json".data
          (some "/csp/gateway/am/api/login".data)) = true ∧
    retryAux (fun _ => .resp ⟨401, 4⟩)
        (isLoginInfo
          (mkInfo "VraClient.post".data "json".data
            (some "/csp/gateway/am/api/login".data))) 3 0 none
      = (.httpUnsuccessful ⟨401, 4⟩, []) :=
  ⟨(login_detected_textually.1 "VraClient.post".data "json".data
      (some "/csp/gateway/am/api/login".data)).mpr
      (Or.inl ⟨"/csp/gateway/am/api/login".data, rfl, by decide⟩),
    login_detected_textually.2.1 "VraClient.post".data "json".data
      "/csp/gateway/am/api/login".data (fun _ => .resp ⟨401, 4⟩) 2 0 none
      ⟨401, 4⟩ (by decide) rfl (by norm_num) (by norm_num) (by norm_num)⟩

/-! ## Concrete reachable states -/

lemma reach_one_entry : Reach ⟨1, 10, 1, [0], 0⟩ 0 := by
  have h0 : Reach ⟨1, 10, 1, [], 1⟩ 0 := Reach.init 1 10 1 0 one_pos (by norm_num)
  exact Reach.enter 0 ⟨⟨1, 10, 1, [0], 0⟩, none, 0⟩ h0 le_rfl one_pos
    (by norm_num [Sched.grant])

lemma reach_two_entries : Reach ⟨1, 10, 1, [0, 10], 0⟩ 5 := by
  have h2 : Reach ⟨1, 10, 1, [0], 1⟩ 0 := by
    have h := Reach.exit 0 reach_one_entry le_rfl
    have he : Sched.exit ⟨1, 10, 1, [0], 0⟩ 0 = ⟨1, 10, 1, [0], 1⟩ := by
      norm_num [Sched.exit, List.dropWhile]
    rwa [he] at h
  exact Reach.enter 5 ⟨⟨1, 10, 1, [0, 10], 0⟩, some 15, 10⟩ h2 (by norm_num)
    one_pos (by norm_num [Sched.grant])

theorem scheduler_window_gap_witness :
    (Sched.mk 1 10 1 [0, 10] 0).schedule.getD 0 0 + (Sched.mk 1 10 1 [0, 10] 0).limit
      ≤ (Sched.mk 1 10 1 [0, 10] 0).schedule.getD
          (0 + (Sched.mk 1 10 1 [0, 10] 0).rate) 0 :=
  (scheduler_window_gap reach_two_entries).1 0 (by norm_num)

theorem scheduler_release_prunes_witness :
    ((Sched.mk 1 10 1 [0] 0).exit 0).permits = 0 + 1 ∧
    (0 : ℚ) - 0 ≤ (Sched.mk 1 10 1 [0] 0).limit := by
  have h := scheduler_release_prunes reach_one_entry le_rfl
  refine ⟨h.1, ?_⟩
  have hm : (0 : ℚ) ∈ ((Sched.mk 1 10 1 [0] 0).exit 0).schedule := by
    norm_num [Sched.exit, List.dropWhile]
  exact h.2.2 0 hm
